import Mathlib

/-!
Verification of the chankit stream-operator library.

The Go source is embedded shallowly: each operator goroutine is a
deterministic state machine driven by an explicit trace of resolved
`select` outcomes (value received, input closed, ticker fired,
context cancelled).  Emissions to the output channel are collected in
order.  Where an emission in the source sits inside a `select` that
also offers `ctx.Done()`, the corresponding trace event carries an
interrupt flag (the cancellation alternative being chosen).
-/

namespace Chankit

/-! ## Channel construction (helpers.go, gen.go)

`chanConfig` holds a single `bufferSize int` field; a `ChanOption`
mutates it.  `make(chan T, n)` panics when `n` is negative, which we
model as `none`. -/

/-- A channel option mutates the `bufferSize` field of `chanConfig`. -/
def ChanOption : Type := Int → Int

/-- `WithBuffer(size)` sets `cfg.bufferSize = size` (helpers.go). -/
def withBuffer (size : Int) : ChanOption := fun _ => size

/-- `WithBufferAuto()` sets `cfg.bufferSize = -1`, a sentinel for
auto-sizing (helpers.go). -/
def withBufferAuto : ChanOption := fun _ => -1

/-- Folds the options over the default config `{bufferSize: 0}`. -/
def applyOpts (opts : List ChanOption) : Int :=
  opts.foldl (fun b o => o b) 0

/-- `make(chan T, n)`: panics (`none`) on a negative size, otherwise
yields a channel with buffer capacity `n`. -/
def makeChan (n : Int) : Option Nat :=
  if n < 0 then none else some n.toNat

/-- `applyChanOptions` (helpers.go): applies the options to the default
config and calls `make` with the resulting buffer size.  The `-1`
sentinel is not resolved here. -/
def applyChanOptions (opts : List ChanOption) : Option Nat :=
  makeChan (applyOpts opts)

/-- Buffer of the channel created by `Generate`, `Repeat` and `Range`
(gen.go): each calls `applyChanOptions(opts...)` directly. -/
def generateChanBuffer (opts : List ChanOption) : Option Nat :=
  applyChanOptions opts

/-- Buffer of the channel created by `SliceToChan` (gen.go lines
173-196): the `-1` sentinel is replaced by `WithBuffer(len(slice))`
before `applyChanOptions` runs. -/
def sliceToChanBuffer {T : Type} (slice : List T) (opts : List ChanOption) :
    Option Nat :=
  let cfg := applyOpts opts
  let opts := if cfg = -1 then [withBuffer (slice.length : Int)] else opts
  applyChanOptions opts

/-! ## Fluent pipeline wrapper (gen.go) -/

/-- `Pipeline` holds a context and the current output channel
(gen.go).  It has no buffer-size field. -/
structure Pipeline (C : Type) (T : Type) where
  ctx : C
  ch : T

/-- `Pipeline.WithBuffer(size)` (gen.go lines 634-638): the body is
`return p`. -/
def Pipeline.withBuffer {C T : Type} (p : Pipeline C T) (_size : Int) :
    Pipeline C T :=
  p

/-! ## Zip (combine.go lines 42-88)

Under the no-cancellation assumption none of the three `ctx.Done()`
branches is ever selected, so the goroutine deterministically
alternates: receive from `ch1` (return if closed), receive from `ch2`
(return if closed), emit the pair. -/

/-- Emissions of the `Zip` goroutine fed two finite closed sources,
with the context never cancelled. -/
def zipRun {A B : Type} : List A → List B → List (A × B)
  | a :: xs, b :: ys => (a, b) :: zipRun xs ys
  | _, _ => []

theorem zipRun_nil_left {A B : Type} (ys : List B) :
    zipRun ([] : List A) ys = [] := by
  cases ys <;> rfl

theorem zipRun_nil_right {A B : Type} (xs : List A) :
    zipRun xs ([] : List B) = [] := by
  cases xs <;> rfl

theorem zipRun_eq_zip {A B : Type} :
    ∀ (xs : List A) (ys : List B), zipRun xs ys = xs.zip ys
  | [], ys => by cases ys <;> rfl
  | _ :: _, [] => rfl
  | a :: xs, b :: ys => by
      simp [zipRun, List.zip_cons_cons, zipRun_eq_zip xs ys]

/-! ## Throttle (flow.go lines 17-52)

The goroutine loops over a `select` with three cases: `ctx.Done()`,
receive from `in` (value or closed), and the ticker.  The ticker case,
when a pending value exists, performs an inner `select` between
`ctx.Done()` and the send; the trace event `tick intr` records which
side won (`intr = true` means cancellation preempted the send).  No
return path of `Throttle` spawns `go drain(in)`. -/

/-- Resolved `select` outcomes driving the `Throttle` goroutine. -/
inductive TEv (T : Type) where
  | cancel : TEv T
  | recv : T → TEv T
  | closed : TEv T
  | tick : Bool → TEv T
  deriving DecidableEq

/-- Result of running the `Throttle` goroutine on a trace: emitted
values, final pending slot, whether the goroutine returned, whether
the return was on a `ctx.Done()` branch, and whether a `go drain(in)`
was spawned before returning. -/
structure ThrottleRes (T : Type) where
  outs : List T
  pending : Option T
  stopped : Bool
  byCancel : Bool
  drained : Bool
  deriving DecidableEq

/-- The `Throttle` goroutine body (flow.go lines 20-49), run from a
given pending slot over a trace of resolved select outcomes. -/
def throttleProc {T : Type} (pending : Option T) :
    List (TEv T) → ThrottleRes T
  | [] => ⟨[], pending, false, false, false⟩
  | .cancel :: _ => ⟨[], pending, true, true, false⟩
  | .closed :: _ => ⟨[], pending, true, false, false⟩
  | .recv v :: es => throttleProc (some v) es
  | .tick intr :: es =>
      match pending with
      | none => throttleProc none es
      | some v =>
          if intr then ⟨[], some v, true, true, false⟩
          else
            let r := throttleProc none es
            ⟨v :: r.outs, r.pending, r.stopped, r.byCancel, r.drained⟩

/-- An event that neither closes the input nor involves cancellation. -/
def tSafe {T : Type} : TEv T → Bool
  | .recv _ => true
  | .tick intr => !intr
  | _ => false

/-! ## Forwarding helpers (helpers.go lines 50-132) and send (lines 145-153)

Each loop iteration of `forwardSimple`, `forwardWithSideEffect` and
`forwardWithTransform` resolves to one of: outer `ctx.Done()` (spawn
drain, return), input closed (return), value received then the inner
`select` hits `ctx.Done()` (spawn drain, return), or value received
and sent. -/

/-- Resolved per-iteration outcomes of the `forwardSimple` loop. -/
inductive FEv (T : Type) where
  | cancel : FEv T
  | closed : FEv T
  | recvCancel : T → FEv T
  | recvSend : T → FEv T
  deriving DecidableEq

/-- Result of running `forwardSimple` on a trace. -/
structure ForwardRes (T : Type) where
  outs : List T
  stopped : Bool
  byCancel : Bool
  drained : Bool
  deriving DecidableEq

/-- The `forwardSimple` loop (helpers.go lines 50-68): both
cancellation exits execute `go drain(in)` before returning; the
closed-input exit does not (nothing is left to drain). -/
def forwardSimple {T : Type} : List (FEv T) → ForwardRes T
  | [] => ⟨[], false, false, false⟩
  | .cancel :: _ => ⟨[], true, true, true⟩
  | .closed :: _ => ⟨[], true, false, false⟩
  | .recvCancel _ :: _ => ⟨[], true, true, true⟩
  | .recvSend v :: es =>
      let r := forwardSimple es
      ⟨v :: r.outs, r.stopped, r.byCancel, r.drained⟩

/-- Result of running `forwardWithSideEffect` on a trace: forwarded
values, values the side effect ran on, and the exit bookkeeping. -/
structure ForwardSERes (T : Type) where
  outs : List T
  effects : List T
  stopped : Bool
  byCancel : Bool
  drained : Bool
  deriving DecidableEq

/-- The `forwardWithSideEffect` loop (helpers.go lines 76-98): the
side effect runs on each received value before the inner `select`, so
it has run even when cancellation preempts the forwarding send; both
cancellation exits execute `go drain(in)` before returning. -/
def forwardWithSideEffect {T : Type} : List (FEv T) → ForwardSERes T
  | [] => ⟨[], [], false, false, false⟩
  | .cancel :: _ => ⟨[], [], true, true, true⟩
  | .closed :: _ => ⟨[], [], true, false, false⟩
  | .recvCancel v :: _ => ⟨[], [v], true, true, true⟩
  | .recvSend v :: es =>
      let r := forwardWithSideEffect es
      ⟨v :: r.outs, v :: r.effects, r.stopped, r.byCancel, r.drained⟩

/-- The `forwardWithTransform` loop (helpers.go lines 110-132): each
received value is transformed before the inner `select` sends it;
both cancellation exits execute `go drain(in)` before returning. -/
def forwardWithTransform {T R : Type} (transform : T → R) :
    List (FEv T) → ForwardRes R
  | [] => ⟨[], false, false, false⟩
  | .cancel :: _ => ⟨[], true, true, true⟩
  | .closed :: _ => ⟨[], true, false, false⟩
  | .recvCancel _ :: _ => ⟨[], true, true, true⟩
  | .recvSend v :: es =>
      let r := forwardWithTransform transform es
      ⟨transform v :: r.outs, r.stopped, r.byCancel, r.drained⟩

/-- The `send` helper (helpers.go lines 145-153): one `select` racing
`ctx.Done()` against `out <- val`; when cancellation wins it returns
`false` having emitted nothing, otherwise `true` having emitted the
value.  The Boolean argument is the resolution of that race. -/
def send {T : Type} (interrupted : Bool) (v : T) : Bool × List T :=
  if interrupted then (false, []) else (true, [v])

theorem forwardSimple_drains_on_cancel {T : Type} :
    ∀ tr : List (FEv T), (forwardSimple tr).drained = (forwardSimple tr).byCancel
  | [] => rfl
  | .cancel :: _ => rfl
  | .closed :: _ => rfl
  | .recvCancel _ :: _ => rfl
  | .recvSend _ :: es => forwardSimple_drains_on_cancel es

theorem forwardWithSideEffect_drains_on_cancel {T : Type} :
    ∀ tr : List (FEv T),
      (forwardWithSideEffect tr).drained = (forwardWithSideEffect tr).byCancel
  | [] => rfl
  | .cancel :: _ => rfl
  | .closed :: _ => rfl
  | .recvCancel _ :: _ => rfl
  | .recvSend _ :: es => forwardWithSideEffect_drains_on_cancel es

theorem forwardWithTransform_drains_on_cancel {T R : Type} (transform : T → R) :
    ∀ tr : List (FEv T),
      (forwardWithTransform transform tr).drained
        = (forwardWithTransform transform tr).byCancel
  | [] => rfl
  | .cancel :: _ => rfl
  | .closed :: _ => rfl
  | .recvCancel _ :: _ => rfl
  | .recvSend _ :: es => forwardWithTransform_drains_on_cancel transform es

theorem throttleProc_never_drains {T : Type} :
    ∀ (p : Option T) (tr : List (TEv T)), (throttleProc p tr).drained = false
  | _, [] => rfl
  | _, .cancel :: _ => rfl
  | _, .closed :: _ => rfl
  | _, .recv v :: es => throttleProc_never_drains (some v) es
  | p, .tick intr :: es => by
      match p with
      | none => exact throttleProc_never_drains none es
      | some v =>
          by_cases h : intr = true
          · simp [throttleProc, h]
          · simp only [Bool.not_eq_true] at h
            simp [throttleProc, h, throttleProc_never_drains none es]

/-! ## Debounce (flow.go lines 189-245)

The goroutine selects among `ctx.Done()`, the input, and the one-shot
timer channel.  On input closed with a pending value it flushes the
pending value through an inner `select` against `ctx.Done()`; the
`closed intr` event records whether that flush was preempted.  A tick
with no pending value is a no-op (`if pending != nil`). -/

/-- Resolved `select` outcomes driving the `Debounce` goroutine. -/
inductive DEv (T : Type) where
  | cancel : DEv T
  | recv : T → DEv T
  | closed : Bool → DEv T
  | tick : Bool → DEv T
  deriving DecidableEq

/-- Result of running the `Debounce` goroutine on a trace. -/
structure DebounceRes (T : Type) where
  outs : List T
  pending : Option T
  stopped : Bool
  deriving DecidableEq

/-- The `Debounce` goroutine body (flow.go lines 192-242), run from a
given pending slot over a trace of resolved select outcomes. -/
def debounceProc {T : Type} (pending : Option T) :
    List (DEv T) → DebounceRes T
  | [] => ⟨[], pending, false⟩
  | .cancel :: _ => ⟨[], pending, true⟩
  | .closed intr :: _ =>
      match pending, intr with
      | some v, false => ⟨[v], some v, true⟩
      | some v, true => ⟨[], some v, true⟩
      | none, _ => ⟨[], none, true⟩
  | .recv v :: es => debounceProc (some v) es
  | .tick intr :: es =>
      match pending with
      | none => debounceProc none es
      | some v =>
          if intr then ⟨[], some v, true⟩
          else
            let r := debounceProc none es
            ⟨v :: r.outs, r.pending, r.stopped⟩

/-- An event that neither terminates the `Debounce` loop nor involves
cancellation. -/
def dSafe {T : Type} : DEv T → Bool
  | .recv _ => true
  | .tick intr => !intr
  | _ => false

/-! ## FixedInterval (flow.go lines 65-113)

The main loop selects among `ctx.Done()`, the input and the ticker; a
tick with a non-empty queue performs an inner `select` between
`ctx.Done()` and sending the queue head (`tick intr` records the
outcome).  When the input closes, the goroutine enters a nested loop
that keeps popping the queue head on each tick until the queue is
empty, then returns.  Once the input is closed no further `recv` or
`closed` events can occur; such events are skipped in the nested
loop's embedding (they are unreachable). -/

/-- Resolved `select` outcomes driving the `FixedInterval` goroutine. -/
inductive FIEv (T : Type) where
  | cancel : FIEv T
  | recv : T → FIEv T
  | closed : FIEv T
  | tick : Bool → FIEv T
  deriving DecidableEq

/-- Result of running the `FixedInterval` goroutine on a trace. -/
structure FIRes (T : Type) where
  outs : List T
  queue : List T
  stopped : Bool
  deriving DecidableEq

/-- The nested queue-draining loop entered when the input closes
(flow.go lines 82-95): while the queue is non-empty, wait for a tick
(or cancellation) and emit the queue head (or be preempted by
cancellation); when the queue empties, return. -/
def fiDrainLoop {T : Type} : List T → List (FIEv T) → FIRes T
  | [], _ => ⟨[], [], true⟩
  | v :: rest, [] => ⟨[], v :: rest, false⟩
  | v :: rest, .cancel :: _ => ⟨[], v :: rest, true⟩
  | v :: rest, .tick true :: _ => ⟨[], v :: rest, true⟩
  | v :: rest, .tick false :: es =>
      let r := fiDrainLoop rest es
      ⟨v :: r.outs, r.queue, r.stopped⟩
  | v :: rest, .recv _ :: es => fiDrainLoop (v :: rest) es
  | v :: rest, .closed :: es => fiDrainLoop (v :: rest) es

/-- The `FixedInterval` goroutine body (flow.go lines 68-110), run
from a given queue over a trace of resolved select outcomes. -/
def fixedIntervalProc {T : Type} (queue : List T) :
    List (FIEv T) → FIRes T
  | [] => ⟨[], queue, false⟩
  | .cancel :: _ => ⟨[], queue, true⟩
  | .closed :: es => fiDrainLoop queue es
  | .recv v :: es => fixedIntervalProc (queue ++ [v]) es
  | .tick intr :: es =>
      match queue with
      | [] => fixedIntervalProc [] es
      | v :: rest =>
          if intr then ⟨[], v :: rest, true⟩
          else
            let r := fixedIntervalProc rest es
            ⟨v :: r.outs, r.queue, r.stopped⟩

/-- The input values carried by a trace, in arrival order. -/
def fiValues {T : Type} : List (FIEv T) → List T
  | [] => []
  | .recv v :: es => v :: fiValues es
  | _ :: es => fiValues es

/-- An event that neither closes the input nor involves
cancellation. -/
def fiSafe {T : Type} : FIEv T → Bool
  | .recv _ => true
  | .tick intr => !intr
  | _ => false

theorem fiDrainLoop_replicate {T : Type} :
    ∀ (queue : List T) (k : Nat), queue.length ≤ k →
      fiDrainLoop queue (List.replicate k (FIEv.tick false))
        = ⟨queue, [], true⟩ := by
  intro queue
  induction queue with
  | nil => intro k _; simp [fiDrainLoop]
  | cons v rest ih =>
      intro k hk
      cases k with
      | zero => simp at hk
      | succ k =>
          have hk2 : rest.length ≤ k := by
            simpa [Nat.succ_le_succ_iff] using hk
          simp [List.replicate_succ, fiDrainLoop, ih k hk2]

/-! ## Batch (flow.go lines 115-177)

The goroutine selects among `ctx.Done()`, the input and the one-shot
timer channel.  Reaching `len(batch) >= batchSize` after an append
triggers an immediate emission through a `select` that also offers
`ctx.Done()` (the `recv v intr` flag records whether cancellation
preempted that send; in that case the code falls back to
`sendBatch()` and returns).  All other emissions go through the
`sendBatch` closure, whose `outChan <- batch` is a bare send with no
cancellation alternative.  Each emission record therefore carries the
triggering site and whether the send offered `ctx.Done()` as an
alternative (`cancellable`).  The timer is armed exactly when the
accumulator is non-empty, so a tick with an empty accumulator is a
no-op (`sendBatch` with an empty batch emits nothing). -/

/-- The site that triggered an emission of `Batch`. -/
inductive BTrig where
  | size : BTrig
  | timer : BTrig
  | closedFlush : BTrig
  | cancelFlush : BTrig
  deriving DecidableEq

/-- One emission of the `Batch` goroutine: the slice sent, the
triggering site, and whether the send was inside a `select` offering
`ctx.Done()`. -/
structure BEmit (T : Type) where
  vals : List T
  trig : BTrig
  cancellable : Bool
  deriving DecidableEq

/-- Resolved `select` outcomes driving the `Batch` goroutine. -/
inductive BEv (T : Type) where
  | cancel : BEv T
  | recv : T → Bool → BEv T
  | closed : BEv T
  | tick : BEv T
  deriving DecidableEq

/-- Result of running the `Batch` goroutine on a trace. -/
structure BRes (T : Type) where
  outs : List (BEmit T)
  batch : List T
  stopped : Bool
  deriving DecidableEq

/-- The `sendBatch` closure (flow.go lines 124-133): if the
accumulator is non-empty it performs a bare `outChan <- batch` (not
cancellable), then clears the accumulator and stops the timer. -/
def sendBatch {T : Type} (batch : List T) (trig : BTrig) :
    List (BEmit T) :=
  if batch.isEmpty then [] else [⟨batch, trig, false⟩]

/-- The `Batch` goroutine body (flow.go lines 118-174), run from a
given accumulator over a trace of resolved select outcomes. -/
def batchProc {T : Type} (size : Int) (batch : List T) :
    List (BEv T) → BRes T
  | [] => ⟨[], batch, false⟩
  | .cancel :: _ => ⟨sendBatch batch .cancelFlush, [], true⟩
  | .closed :: _ => ⟨sendBatch batch .closedFlush, [], true⟩
  | .recv v intr :: es =>
      let b := batch ++ [v]
      if (b.length : Int) ≥ size then
        if intr then ⟨sendBatch b .cancelFlush, [], true⟩
        else
          let r := batchProc size [] es
          ⟨⟨b, .size, true⟩ :: r.outs, r.batch, r.stopped⟩
      else batchProc size b es
  | .tick :: es =>
      let r := batchProc size [] es
      ⟨sendBatch batch .timer ++ r.outs, r.batch, r.stopped⟩

/-- The input values carried by a trace, in arrival order. -/
def bValues {T : Type} : List (BEv T) → List T
  | [] => []
  | .recv v _ :: es => v :: bValues es
  | _ :: es => bValues es

/-- An event that neither closes the input nor involves
cancellation. -/
def bSafe {T : Type} : BEv T → Bool
  | .recv _ intr => !intr
  | .tick => true
  | _ => false

/-- Concatenation of the slices carried by a list of emissions. -/
def emitsVals {T : Type} (l : List (BEmit T)) : List T :=
  (l.map BEmit.vals).flatten

theorem emitsVals_nil {T : Type} : emitsVals ([] : List (BEmit T)) = [] :=
  rfl

theorem emitsVals_cons {T : Type} (e : BEmit T) (l : List (BEmit T)) :
    emitsVals (e :: l) = e.vals ++ emitsVals l := by
  simp [emitsVals]

theorem emitsVals_append {T : Type} (a b : List (BEmit T)) :
    emitsVals (a ++ b) = emitsVals a ++ emitsVals b := by
  simp [emitsVals]

theorem emitsVals_sendBatch {T : Type} (batch : List T) (trig : BTrig) :
    emitsVals (sendBatch batch trig) = batch := by
  cases batch <;> simp [sendBatch, emitsVals]

theorem batchProc_recv {T : Type} (size : Int) (batch : List T) (v : T)
    (intr : Bool) (es : List (BEv T)) :
    batchProc size batch (.recv v intr :: es)
      = if (((batch ++ [v]).length : Int) ≥ size) then
          if intr then ⟨sendBatch (batch ++ [v]) .cancelFlush, [], true⟩
          else ⟨⟨batch ++ [v], .size, true⟩ :: (batchProc size [] es).outs,
            (batchProc size [] es).batch, (batchProc size [] es).stopped⟩
        else batchProc size (batch ++ [v]) es :=
  rfl

theorem mem_sendBatch {T : Type} {em : BEmit T} {batch : List T}
    {trig : BTrig} (h : em ∈ sendBatch batch trig) :
    em.cancellable = false ∧ em.trig = trig := by
  cases batch with
  | nil => simp [sendBatch] at h
  | cons b bs =>
      simp [sendBatch] at h
      subst h
      exact ⟨rfl, rfl⟩

end Chankit

namespace Chankit

/-- Claim C9: `Pipeline.WithBuffer(size)` is the identity on
pipelines: it returns the receiver itself, context and channel
unchanged, and the size argument has no effect. -/
theorem pipeline_withBuffer_identity {C T : Type} (p : Pipeline C T)
    (size : Int) :
    p.withBuffer size = p ∧
    (p.withBuffer size).ctx = p.ctx ∧
    (p.withBuffer size).ch = p.ch ∧
    ∀ size2 : Int, p.withBuffer size = p.withBuffer size2 :=
  ⟨rfl, rfl, rfl, fun _ => rfl⟩

/-- Claim C8: with no cancellation, `Zip` on closed sources of lengths
`p` and `q` emits exactly `min p q` pairs, the `i`-th being
`(A[i], B[i])`, and it stops as soon as either source is exhausted. -/
theorem zip_lockstep_pairs {A B : Type} (xs : List A) (ys : List B) :
    (zipRun xs ys).length = min xs.length ys.length ∧
    (∀ (i : Nat) (ha : i < xs.length) (hb : i < ys.length),
      (zipRun xs ys)[i]? = some (xs.get ⟨i, ha⟩, ys.get ⟨i, hb⟩)) ∧
    zipRun xs ([] : List B) = [] ∧ zipRun ([] : List A) ys = [] := by
  refine ⟨?_, ?_, zipRun_nil_right xs, zipRun_nil_left ys⟩
  · rw [zipRun_eq_zip]; exact List.length_zip xs ys
  · intro i ha hb
    rw [zipRun_eq_zip]
    have hz : i < (xs.zip ys).length := by
      rw [List.length_zip]; exact lt_min ha hb
    rw [List.getElem?_eq_getElem hz]
    simp [List.getElem_zip, List.get_eq_getElem]

/-- Witness for C8 at `xs = [1,2,3]`, `ys = [10,20]`, `i = 1`. -/
theorem zip_lockstep_pairs_witness :
    (zipRun [1, 2, 3] [10, 20]).length = min 3 2 ∧
    (zipRun [1, 2, 3] [10, 20])[1]? = some (2, 20) := by
  have h := zip_lockstep_pairs [1, 2, 3] [10, 20]
  exact ⟨h.1, by simpa using h.2.1 1 (by decide) (by decide)⟩

/-- Claim C1 counterexample: cancellation fires on `Throttle` while
its input is still open (after one value was consumed), and the
goroutine terminates on the `ctx.Done()` branch without spawning a
drain of the remaining input. -/
theorem throttle_cancel_no_drain_cex :
    (throttleProc (none : Option Nat) [TEv.recv 1, TEv.cancel]).byCancel
        = true ∧
    (throttleProc (none : Option Nat) [TEv.recv 1, TEv.cancel]).stopped
        = true ∧
    (throttleProc (none : Option Nat) [TEv.recv 1, TEv.cancel]).drained
        = false := by
  decide

/-- Claim C1 (amended): the drain-on-cancel discipline is implemented
in the forwarding helpers, not in `Throttle`: whenever `forwardSimple`,
`forwardWithSideEffect` or `forwardWithTransform` terminates because
cancellation fired, it has spawned `go drain(in)`, while `Throttle`
never spawns a drain on any path. -/
theorem drain_discipline_located {T R : Type} (transform : T → R) :
    (∀ tr : List (FEv T), (forwardSimple tr).byCancel = true →
      (forwardSimple tr).drained = true) ∧
    (∀ tr : List (FEv T), (forwardWithSideEffect tr).byCancel = true →
      (forwardWithSideEffect tr).drained = true) ∧
    (∀ tr : List (FEv T),
      (forwardWithTransform transform tr).byCancel = true →
      (forwardWithTransform transform tr).drained = true) ∧
    (∀ (p : Option T) (tr : List (TEv T)),
      (throttleProc p tr).drained = false) := by
  refine ⟨fun tr h => ?_, fun tr h => ?_, fun tr h => ?_,
    throttleProc_never_drains⟩
  · rw [forwardSimple_drains_on_cancel, h]
  · rw [forwardWithSideEffect_drains_on_cancel, h]
  · rw [forwardWithTransform_drains_on_cancel, h]

/-- Witness for the amended C1 at concrete traces: each forwarding
helper cancelled mid-stream has drained, Throttle cancelled has not. -/
theorem drain_discipline_located_witness :
    (forwardSimple ([FEv.cancel] : List (FEv Nat))).drained = true ∧
    (forwardWithSideEffect ([FEv.recvCancel 4] : List (FEv Nat))).drained
      = true ∧
    (forwardWithTransform (fun n : Nat => n + 1) [FEv.cancel]).drained
      = true ∧
    (throttleProc (none : Option Nat) [TEv.cancel]).drained = false :=
  ⟨(drain_discipline_located (fun n : Nat => n + 1)).1
      [FEv.cancel] (by decide),
    (drain_discipline_located (fun n : Nat => n + 1)).2.1
      [FEv.recvCancel 4] (by decide),
    (drain_discipline_located (fun n : Nat => n + 1)).2.2.1
      [FEv.cancel] (by decide),
    (drain_discipline_located (fun n : Nat => n + 1)).2.2.2
      none [TEv.cancel]⟩

/-- Claim C7: when `Throttle`'s source closes, the goroutine returns
at once: whatever value is pending is dropped, and closing the input
adds no emission beyond those already made. -/
theorem throttle_drops_pending_on_close {T : Type} :
    ∀ (pre : List (TEv T)) (p : Option T), (∀ e ∈ pre, tSafe e = true) →
      (throttleProc p (pre ++ [TEv.closed])).outs
          = (throttleProc p pre).outs ∧
      (throttleProc p (pre ++ [TEv.closed])).stopped = true := by
  intro pre
  induction pre with
  | nil => intro p _; exact ⟨rfl, rfl⟩
  | cons e es ih =>
      intro p h
      have he : tSafe e = true := h e (List.mem_cons_self e es)
      have hes : ∀ x ∈ es, tSafe x = true :=
        fun x hx => h x (List.mem_cons_of_mem _ hx)
      cases e with
      | cancel => simp [tSafe] at he
      | closed => simp [tSafe] at he
      | recv v => simpa [throttleProc] using ih (some v) hes
      | tick intr =>
          have hintr : intr = false := by simpa [tSafe] using he
          subst hintr
          cases p with
          | none => simpa [throttleProc] using ih none hes
          | some v =>
              have hr := ih none hes
              simp [throttleProc, hr.1, hr.2]

/-- Witness for C7: value 1 is pending when the source closes, and
the output contains no emission at all. -/
theorem throttle_drops_pending_on_close_witness :
    (throttleProc (none : Option Nat)
        ([TEv.recv 1] ++ [TEv.closed])).outs
      = (throttleProc (none : Option Nat) [TEv.recv 1]).outs ∧
    (throttleProc (none : Option Nat)
        ([TEv.recv 1] ++ [TEv.closed])).stopped = true :=
  throttle_drops_pending_on_close [TEv.recv 1] none (by decide)

/-- Claim C6: when `Debounce`'s source closes, any pending value is
flushed to the output before the output closes; in particular the
input `1,2,3` followed immediately by closure emits exactly `[3]`. -/
theorem debounce_flushes_pending_on_close {T : Type} :
    ∀ (pre : List (DEv T)) (p : Option T), (∀ e ∈ pre, dSafe e = true) →
      (debounceProc p (pre ++ [DEv.closed false])).outs
          = (debounceProc p pre).outs
            ++ (debounceProc p pre).pending.toList ∧
      (debounceProc p (pre ++ [DEv.closed false])).stopped = true := by
  intro pre
  induction pre with
  | nil =>
      intro p _
      cases p <;> exact ⟨rfl, rfl⟩
  | cons e es ih =>
      intro p h
      have he : dSafe e = true := h e (List.mem_cons_self e es)
      have hes : ∀ x ∈ es, dSafe x = true :=
        fun x hx => h x (List.mem_cons_of_mem _ hx)
      cases e with
      | cancel => simp [dSafe] at he
      | closed intr => simp [dSafe] at he
      | recv v => simpa [debounceProc] using ih (some v) hes
      | tick intr =>
          have hintr : intr = false := by simpa [dSafe] using he
          subst hintr
          cases p with
          | none => simpa [debounceProc] using ih none hes
          | some v =>
              have hr := ih none hes
              simp [debounceProc, hr.1, hr.2]

/-- Witness for C6: feeding `1,2,3` then closing immediately flushes
the pending `3`, so the output is exactly `[3]`. -/
theorem debounce_flushes_pending_on_close_witness :
    (debounceProc (none : Option Nat)
        ([DEv.recv 1, DEv.recv 2, DEv.recv 3] ++ [DEv.closed false])).outs
      = [3] ∧
    (debounceProc (none : Option Nat)
        ([DEv.recv 1, DEv.recv 2, DEv.recv 3] ++ [DEv.closed false])).stopped
      = true := by
  have h := debounce_flushes_pending_on_close
    [DEv.recv 1, DEv.recv 2, DEv.recv 3] none (by decide)
  exact ⟨h.1.trans (by decide), h.2⟩

/-- Claim C5: with no cancellation, `FixedInterval` emits every input
value exactly once in FIFO order; closing the input does not truncate
the queue — the goroutine keeps draining it against the ticker and
closes its output only once the queue is empty. -/
theorem fixedInterval_no_drops {T : Type} :
    ∀ (pre : List (FIEv T)) (queue : List T) (k : Nat),
      (∀ e ∈ pre, fiSafe e = true) →
      queue.length + (fiValues pre).length ≤ k →
      fixedIntervalProc queue
          (pre ++ FIEv.closed :: List.replicate k (FIEv.tick false))
        = ⟨queue ++ fiValues pre, [], true⟩ := by
  intro pre
  induction pre with
  | nil =>
      intro queue k _ hk
      have hq : queue.length ≤ k := by simpa [fiValues] using hk
      simpa [fixedIntervalProc, fiValues] using fiDrainLoop_replicate queue k hq
  | cons e es ih =>
      intro queue k h hk
      have he : fiSafe e = true := h e (List.mem_cons_self e es)
      have hes : ∀ x ∈ es, fiSafe x = true :=
        fun x hx => h x (List.mem_cons_of_mem _ hx)
      cases e with
      | cancel => simp [fiSafe] at he
      | closed => simp [fiSafe] at he
      | recv v =>
          have hk2 : (queue ++ [v]).length + (fiValues es).length ≤ k := by
            simp only [List.length_append, List.length_singleton]
            simpa [fiValues, Nat.add_assoc, Nat.add_comm,
              Nat.add_left_comm] using hk
          have := ih (queue ++ [v]) k hes hk2
          simpa [fixedIntervalProc, fiValues, List.append_assoc] using this
      | tick intr =>
          have hintr : intr = false := by simpa [fiSafe] using he
          subst hintr
          cases queue with
          | nil =>
              have hk2 : ([] : List T).length + (fiValues es).length ≤ k := by
                simpa [fiValues] using hk
              simpa [fixedIntervalProc, fiValues] using ih [] k hes hk2
          | cons v rest =>
              have hk2 : rest.length + (fiValues es).length ≤ k := by
                simp [fiValues, List.length_cons] at hk
                omega
              have hrec := ih rest k hes hk2
              simp [fixedIntervalProc, fiValues, hrec]

/-- Witness for C5: two values arrive with one tick interleaved, then
the source closes; two further ticks drain the queue and the output
is `[1, 2]` with an empty final queue. -/
theorem fixedInterval_no_drops_witness :
    fixedIntervalProc ([] : List Nat)
        ([FIEv.recv 1, FIEv.tick false, FIEv.recv 2]
          ++ FIEv.closed :: List.replicate 2 (FIEv.tick false))
      = ⟨[1, 2], [], true⟩ := by
  have h := fixedInterval_no_drops
    [FIEv.recv 1, FIEv.tick false, FIEv.recv 2] [] 2 (by decide) (by decide)
  exact h.trans (by decide)

theorem batch_concat_aux {T : Type} :
    ∀ (pre : List (BEv T)) (size : Int) (batch : List T),
      (∀ e ∈ pre, bSafe e = true) →
      emitsVals (batchProc size batch (pre ++ [BEv.closed])).outs
          = batch ++ bValues pre ∧
      (batchProc size batch (pre ++ [BEv.closed])).stopped = true := by
  intro pre
  induction pre with
  | nil =>
      intro size batch _
      constructor
      · simp [batchProc, emitsVals_sendBatch, bValues]
      · simp [batchProc]
  | cons e es ih =>
      intro size batch h
      have he : bSafe e = true := h e (List.mem_cons_self e es)
      have hes : ∀ x ∈ es, bSafe x = true :=
        fun x hx => h x (List.mem_cons_of_mem _ hx)
      cases e with
      | cancel => simp [bSafe] at he
      | closed => simp [bSafe] at he
      | tick =>
          have hr := ih size [] hes
          simp [batchProc, emitsVals_append, emitsVals_sendBatch,
            hr.1, hr.2, bValues]
      | recv v intr =>
          have hintr : intr = false := by simpa [bSafe] using he
          subst hintr
          rw [List.cons_append, batchProc_recv]
          by_cases hsz : (((batch ++ [v]).length : Int) ≥ size)
          · have hr := ih size [] hes
            rw [if_pos hsz]
            simp [emitsVals_cons, hr.1, hr.2, bValues, List.append_assoc]
          · have hr := ih size (batch ++ [v]) hes
            rw [if_neg hsz]
            simp [hr.1, hr.2, bValues, List.append_assoc]

/-- Claim C4: with no cancellation, concatenating the slices emitted
by `Batch` over a source that closes reproduces the input sequence
exactly; in particular size 3 on a pre-closed source of `1..9` emits
the batches `[1,2,3],[4,5,6],[7,8,9]`. -/
theorem batch_concat_reassembles {T : Type} :
    (∀ (pre : List (BEv T)) (size : Int) (batch : List T),
      (∀ e ∈ pre, bSafe e = true) →
      emitsVals (batchProc size batch (pre ++ [BEv.closed])).outs
          = batch ++ bValues pre ∧
      (batchProc size batch (pre ++ [BEv.closed])).stopped = true) ∧
    (batchProc (3 : Int) ([] : List Nat)
        [BEv.recv 1 false, BEv.recv 2 false, BEv.recv 3 false,
          BEv.recv 4 false, BEv.recv 5 false, BEv.recv 6 false,
          BEv.recv 7 false, BEv.recv 8 false, BEv.recv 9 false,
          BEv.closed]).outs.map BEmit.vals
      = [[1, 2, 3], [4, 5, 6], [7, 8, 9]] :=
  ⟨batch_concat_aux, by decide⟩

/-- Witness for C4 at a concrete size-2 run with a timer flush. -/
theorem batch_concat_reassembles_witness :
    emitsVals (batchProc (2 : Int) ([] : List Nat)
        ([BEv.recv 1 false, BEv.tick, BEv.recv 2 false, BEv.recv 3 false]
          ++ [BEv.closed])).outs
      = [] ++ [1, 2, 3] ∧
    (batchProc (2 : Int) ([] : List Nat)
        ([BEv.recv 1 false, BEv.tick, BEv.recv 2 false, BEv.recv 3 false]
          ++ [BEv.closed])).stopped = true := by
  have h := batch_concat_reassembles.1
    [BEv.recv 1 false, BEv.tick, BEv.recv 2 false, BEv.recv 3 false]
    2 [] (by decide)
  exact ⟨h.1.trans (by decide), h.2⟩

/-- Claim C10: for every `batchSize ≤ 1` (including zero and negative
values), `Batch` neither blocks for the timeout nor accumulates:
every arriving value is emitted at once as a single-element batch via
the size check, and the accumulator stays empty. -/
theorem batch_size_le_one_immediate {T : Type} :
    ∀ (tr : List (BEv T)) (size : Int), size ≤ 1 →
      (∀ e ∈ tr, bSafe e = true) →
      (batchProc size [] tr).outs.map BEmit.vals
          = (bValues tr).map (fun v => [v]) ∧
      (batchProc size [] tr).batch = [] := by
  intro tr
  induction tr with
  | nil => intro size _ _; exact ⟨rfl, rfl⟩
  | cons e es ih =>
      intro size hsize h
      have he : bSafe e = true := h e (List.mem_cons_self e es)
      have hes : ∀ x ∈ es, bSafe x = true :=
        fun x hx => h x (List.mem_cons_of_mem _ hx)
      cases e with
      | cancel => simp [bSafe] at he
      | closed => simp [bSafe] at he
      | tick =>
          have hr := ih size hsize hes
          simp [batchProc, sendBatch, hr.1, hr.2, bValues]
      | recv v intr =>
          have hintr : intr = false := by simpa [bSafe] using he
          subst hintr
          have hsz : ((1 : Int) ≥ size) := by omega
          have hr := ih size hsize hes
          simp [batchProc, hsz, hr.1, hr.2, bValues]

/-- Witness for C10 at `size = 0` with values 5 and 7. -/
theorem batch_size_le_one_immediate_witness :
    (batchProc (0 : Int) ([] : List Nat)
        [BEv.recv 5 false, BEv.tick, BEv.recv 7 false]).outs.map BEmit.vals
      = [[5], [7]] ∧
    (batchProc (0 : Int) ([] : List Nat)
        [BEv.recv 5 false, BEv.tick, BEv.recv 7 false]).batch = [] := by
  have h := batch_size_le_one_immediate
    [BEv.recv 5 false, BEv.tick, BEv.recv 7 false] 0 (by omega) (by decide)
  exact ⟨h.1.trans (by decide), h.2⟩

/-- Claim C3 counterexample: `Batch`'s timer flush goes through
`sendBatch`, whose `outChan <- batch` is a bare send with no
`ctx.Done()` alternative: the emission produced by a timer fire after
one value (size 3) is not cancellable. -/
theorem batch_flush_send_not_cancellable_cex :
    (batchProc (3 : Int) ([] : List Nat)
        [BEv.recv 1 false, BEv.tick]).outs
      = [⟨[1], BTrig.timer, false⟩] ∧
    ((batchProc (3 : Int) ([] : List Nat)
        [BEv.recv 1 false, BEv.tick]).outs.all
          (fun em => em.cancellable)) = false := by
  exact ⟨by decide, by decide⟩

theorem batch_cancellable_aux {T : Type} :
    ∀ (tr : List (BEv T)) (size : Int) (batch : List T),
      ∀ em ∈ (batchProc size batch tr).outs,
        (em.cancellable = true ↔ em.trig = BTrig.size) := by
  intro tr
  induction tr with
  | nil =>
      intro size batch em hem
      simp [batchProc] at hem
  | cons e es ih =>
      intro size batch em hem
      cases e with
      | cancel =>
          simp only [batchProc] at hem
          obtain ⟨h1, h2⟩ := mem_sendBatch hem
          rw [h1, h2]
          simp
      | closed =>
          simp only [batchProc] at hem
          obtain ⟨h1, h2⟩ := mem_sendBatch hem
          rw [h1, h2]
          simp
      | tick =>
          simp only [batchProc, List.mem_append] at hem
          rcases hem with hem | hem
          · obtain ⟨h1, h2⟩ := mem_sendBatch hem
            rw [h1, h2]
            simp
          · exact ih size [] em hem
      | recv v intr =>
          rw [batchProc_recv] at hem
          by_cases hsz : (((batch ++ [v]).length : Int) ≥ size)
          · rw [if_pos hsz] at hem
            cases intr with
            | true =>
                rw [if_pos rfl] at hem
                obtain ⟨h1, h2⟩ := mem_sendBatch hem
                rw [h1, h2]
                simp
            | false =>
                rw [if_neg (by simp)] at hem
                simp only [List.mem_cons] at hem
                rcases hem with hem | hem
                · subst hem; simp
                · exact ih size [] em hem
          · rw [if_neg hsz] at hem
            exact ih size (batch ++ [v]) em hem

/-- Claim C3 (amended): every embedded blocking send to an output —
the shared `send` helper, Throttle's, Debounce's and FixedInterval's
emissions, and `Batch`'s size-triggered send — is combined in a
single wait with cancellation, so cancellation winning that wait
terminates the task without the emission; the exception is `Batch`'s
`sendBatch` closure (timer-expiry, source-close and cancellation
flushes), whose `outChan <- batch` is a bare send with no
`ctx.Done()` alternative.  In `Batch`, an emission is cancellable
exactly when it is size-triggered. -/
theorem send_cancel_wait_discipline {T : Type} :
    (∀ (tr : List (BEv T)) (size : Int) (batch : List T),
      ∀ em ∈ (batchProc size batch tr).outs,
        (em.cancellable = true ↔ em.trig = BTrig.size)) ∧
    (∀ (v : T) (es : List (TEv T)),
      throttleProc (some v) (TEv.tick true :: es)
        = ⟨[], some v, true, true, false⟩) ∧
    (∀ (v : T) (es : List (DEv T)),
      debounceProc (some v) (DEv.tick true :: es) = ⟨[], some v, true⟩ ∧
      debounceProc (some v) (DEv.closed true :: es) = ⟨[], some v, true⟩) ∧
    (∀ (v : T) (rest : List T) (es : List (FIEv T)),
      fixedIntervalProc (v :: rest) (FIEv.tick true :: es)
          = ⟨[], v :: rest, true⟩ ∧
      fiDrainLoop (v :: rest) (FIEv.tick true :: es)
          = ⟨[], v :: rest, true⟩) ∧
    (∀ v : T, send true v = (false, []) ∧ send false v = (true, [v])) :=
  ⟨batch_cancellable_aux,
    fun _ _ => rfl,
    fun _ _ => ⟨rfl, rfl⟩,
    fun _ _ _ => ⟨rfl, rfl⟩,
    fun _ => ⟨rfl, rfl⟩⟩

/-- Witness for the amended C3: the timer-flush emission of the
counterexample run is in the output and satisfies the iff, while a
cancellation-preempted Throttle send and an interrupted `send` emit
nothing. -/
theorem send_cancel_wait_discipline_witness :
    ((⟨[1], BTrig.timer, false⟩ : BEmit Nat)
        ∈ (batchProc (3 : Int) ([] : List Nat)
            [BEv.recv 1 false, BEv.tick]).outs) ∧
    ((⟨[1], BTrig.timer, false⟩ : BEmit Nat).cancellable = true
      ↔ (⟨[1], BTrig.timer, false⟩ : BEmit Nat).trig = BTrig.size) ∧
    throttleProc (some (2 : Nat)) [TEv.tick true]
      = ⟨[], some 2, true, true, false⟩ ∧
    send true (5 : Nat) = (false, []) :=
  ⟨by decide,
    (send_cancel_wait_discipline (T := Nat)).1
      [BEv.recv 1 false, BEv.tick] 3 [] ⟨[1], BTrig.timer, false⟩ (by decide),
    (send_cancel_wait_discipline (T := Nat)).2.1 2 [],
    ((send_cancel_wait_discipline (T := Nat)).2.2.2.2 5).1⟩

/-- Claim C2 counterexample: passing `WithBufferAuto` to `Generate`
(or `Repeat`, or `Range`) makes `applyChanOptions` call
`make(chan T, -1)`, which panics, refuting that channel construction
never panics for every constructor. -/
theorem withBufferAuto_generate_panics :
    generateChanBuffer [withBufferAuto] = none := by
  decide

/-- Claim C2 (amended): only `SliceToChan` resolves the auto-buffer
sentinel: `SliceToChan` with `WithBufferAuto` yields a channel
buffered to the slice length without panicking, while `Generate`,
`Repeat` and `Range` pass the `-1` sentinel straight to `make`, which
panics. -/
theorem withBufferAuto_only_sliceToChan {T : Type} (slice : List T) :
    sliceToChanBuffer slice [withBufferAuto] = some slice.length ∧
    generateChanBuffer [withBufferAuto] = none := by
  constructor
  · simp [sliceToChanBuffer, applyOpts, withBufferAuto, withBuffer,
      applyChanOptions, makeChan]
  · decide

end Chankit
